import Mathlib

/-!
# Product catalog lookup service

A shallow embedding of `data.go` (the catalog generator) and `main.go`
(the lookup handler), followed by the properties proved about them.

Modelling conventions.

* A Go `string` is a Lean `String` (well-formed text).
* A `map[string]*Product` is the list of its entries, whose keys are pairwise
  distinct (`keysNodup`).  A catalog maps codes to records: every pointer stored
  by `GenerateProduct` is the address of a fresh `Product`, so the pointers are
  not nil and not aliased, and an entry holds the record itself.  Maps that hold
  a nil pointer are not catalogs and are outside the model.
* `range` over a map visits the entries in an unspecified order: a scan of a
  map `m` is a scan of any list `es` with `es.Perm m`.
* The reply written to the `http.ResponseWriter` is recorded as the calls the
  handler makes on it: `http.Error` with its message and status, or the header
  and body of a successful reply.  `Response.body` is the body the client
  receives: `http.Error` prints its message with `fmt.Fprintln`, so the body of
  an error reply is the message followed by a newline.
* The handler receives the form value `code` that `r.FormValue` returns.
-/

namespace Benchmark

/-! ## Data model -/

/-- Record type `Product` of the service: a code and a display name. -/
structure Product where
  Code : String
  Name : String
deriving DecidableEq

/-- Value of the Go composite literal `Product{}`: both fields are empty. -/
def Product.zero : Product := { Code := "", Name := "" }

/-- Entries of a `map[string]*Product`, in the order in which `range` visits them. -/
abbrev Catalog := List (String × Product)

/-- Keys of a map are pairwise distinct. -/
def keysNodup (m : Catalog) : Prop := (m.map Prod.fst).Nodup

/-- Map assignment `m[k] = v`: the value under `k` is replaced when the key is
present, and a new entry is added otherwise. -/
def mapAssign : Catalog → String → Product → Catalog
  | [], k, v => [(k, v)]
  | e :: m, k, v => if e.1 = k then (k, v) :: m else e :: mapAssign m k v

/-- Map index expression `m[k]` in its two-result form: the record under `k`, if any. -/
def mapIndex : Catalog → String → Option Product
  | [], _ => none
  | e :: m, k => if e.1 = k then some e.2 else mapIndex m k

/-! ## data.go -/

/-- Slice `ch` of `GenerateProduct`: the twenty-six upper-case letters. -/
def ch : List String :=
  ["A", "B", "C", "D", "E", "F", "G", "H", "I", "J", "K", "L", "M",
   "N", "O", "P", "Q", "R", "S", "T", "U", "V", "W", "X", "Y", "Z"]

/-- Formatting verb `%d` applied to a non-negative `int`. -/
def sprintD (n : Nat) : String := Nat.repr n

/-- Local state of `GenerateProduct`: the global `products` and the counter `no`. -/
structure GenState where
  products : Catalog
  no : Nat

/-- Body of the innermost loop of `GenerateProduct` (data.go lines 13-17). -/
def genBody (c c2 : String) (i j : Nat) (st : GenState) : GenState :=
  let Code := c ++ c2 ++ sprintD i ++ sprintD j
  let Name := "Product " ++ sprintD st.no
  let p : Product := { Code := Code, Name := Name }
  { products := mapAssign st.products p.Code p, no := st.no + 1 }

/-- State of `GenerateProduct` before the loops: an empty map and `no := 0`. -/
def genInit : GenState := { products := [], no := 0 }

/-- Function `GenerateProduct`, as a function of the previous value of the global
`products`; the result is the value of `products` when it returns. -/
def GenerateProduct (_products : Catalog) : Catalog :=
  -- `products = make(map[string]*Product)`: the previous value is dropped
  let st0 : GenState := genInit
  (ch.foldl (fun st c =>
    ch.foldl (fun st c2 =>
      (List.range 10).foldl (fun st i =>
        (List.range 10).foldl (fun st j => genBody c c2 i j st) st) st) st) st0).products

/-- Executions of the loop body of `GenerateProduct`, in program order. -/
def iterations : List (String × String × Nat × Nat) :=
  ch.flatMap (fun c => ch.flatMap (fun c2 =>
    (List.range 10).flatMap (fun i => (List.range 10).map (fun j => (c, c2, i, j)))))

/-- State of `GenerateProduct` after the first `k` executions of the loop body. -/
def genAfter (k : Nat) : GenState :=
  (iterations.take k).foldl (fun st it => genBody it.1 it.2.1 it.2.2.1 it.2.2.2 st) genInit

/-! ## main.go -/

/-- Character class `[A-Z]`. -/
def isUpperAZ (c : Char) : Bool := decide (65 ≤ c.toNat) && decide (c.toNat ≤ 90)

/-- Character class `[0-9]`. -/
def isDigit09 (c : Char) : Bool := decide (48 ≤ c.toNat) && decide (c.toNat ≤ 57)

/-- Result of `regexp.MatchString` for the pattern `^[A-Z]{2}[0-9]{2}$`. -/
def matchCode (code : String) : Bool :=
  match code.data with
  | [a, b, c, d] => isUpperAZ a && isUpperAZ b && isDigit09 c && isDigit09 d
  | _ => false

/-- Function `findProduct`: the first visited record whose `Code` is `code`, and
`Product{}` when the scan ends without one. -/
def findProduct : Catalog → String → Product
  | [], _ => Product.zero
  | item :: rest, code => if code = item.2.Code then item.2 else findProduct rest code

/-- Calls made by a handler on its `http.ResponseWriter`. -/
inductive Response where
  /-- Call `http.Error(w, msg, status)`: a plain-text reply with that status, whose
  body is the message printed as one line. -/
  | error (msg : String) (status : Nat)
  /-- Call `w.Header().Set("Content-Type", contentType)` followed by `w.Write(body)`. -/
  | write (contentType : String) (body : String)
deriving DecidableEq

/-- Constant `http.StatusBadRequest`. -/
def StatusBadRequest : Nat := 400

/-- Constant `http.StatusOK`, the status of a reply written without `WriteHeader`. -/
def StatusOK : Nat := 200

/-- Status code of a reply. -/
def Response.status : Response → Nat
  | .error _ status => status
  | .write _ _ => StatusOK

/-- Body of a reply: `http.Error` writes its message with `fmt.Fprintln`, that is,
followed by a newline; `w.Write` sends the bytes it is given. -/
def Response.body : Response → String
  | .error msg _ => msg ++ "\n"
  | .write _ body => body

/-- Function `handleProduct`, given the global `products` in the order the scan
visits it and the form value `code` of the request. -/
def handleProduct (products : Catalog) (code : String) : Response :=
  if !matchCode code then
    Response.error "code is invalid" StatusBadRequest
  else
    let result := findProduct products code
    if result.Code = "" then
      Response.error "Data Not Found" StatusBadRequest
    else
      Response.write "text/html; charset=utf-8"
        ("<font size=\"10\">Product Code : " ++ result.Code ++ " Name :" ++ result.Name ++ "</font>")

/-! ## Auxiliary definitions used in the proofs -/

/-- Letter number `a` of the alphabet, as a one-character string. -/
def letterAt (a : Nat) : String := String.singleton (Char.ofNat (65 + a))

/-- Digit `i`, as a one-character string. -/
def digitAt (i : Nat) : String := String.singleton (Char.ofNat (48 + i))

/-- Iteration number `n` of the loop nest. -/
def iterAt (n : Nat) : String × String × Nat × Nat :=
  (letterAt (n / 2600), letterAt (n % 2600 / 100), n % 100 / 10, n % 10)

/-- Code assigned by iteration number `n`. -/
def codeAt (n : Nat) : String :=
  letterAt (n / 2600) ++ letterAt (n % 2600 / 100) ++ sprintD (n % 100 / 10) ++ sprintD (n % 10)

/-- Entry stored by iteration number `n`. -/
def entryAt (n : Nat) : String × Product :=
  (codeAt n, { Code := codeAt n, Name := "Product " ++ sprintD n })

/-- Number read back from decimal digits, most significant first, starting from `acc`. -/
def decimalValue (acc : Nat) (ds : List Char) : Nat :=
  ds.foldl (fun v c => 10 * v + (c.toNat - 48)) acc

/-- Body of the reply for a found record. -/
def renderBody (p : Product) : String :=
  "<font size=\"10\">Product Code : " ++ p.Code ++ " Name :" ++ p.Name ++ "</font>"

/-! ## Lists -/

theorem range_flatMap_map {α : Type} (A B : Nat) (f : Nat → Nat → α) :
    (List.range A).flatMap (fun a => (List.range B).map (f a)) =
      (List.range (A * B)).map (fun n => f (n / B) (n % B)) := by
  induction A with
  | zero => simp
  | succ A ih =>
    rw [List.range_succ, List.flatMap_append, ih, Nat.succ_mul, List.range_add, List.map_append]
    congr 1
    simp only [List.flatMap_cons, List.flatMap_nil, List.append_nil, List.map_map]
    apply List.map_congr_left
    intro n hn
    have hn : n < B := List.mem_range.mp hn
    have h1 : (A * B + n) / B = A := by
      rw [Nat.add_comm, Nat.add_mul_div_right _ _ (by omega), Nat.div_eq_of_lt hn, Nat.zero_add]
    have h2 : (A * B + n) % B = n := by
      rw [Nat.add_comm, Nat.add_mul_mod_self_right, Nat.mod_eq_of_lt hn]
    simp [h1, h2]

theorem ch_eq : ch = (List.range 26).map letterAt := by decide

theorem iterations_eq : iterations = (List.range 67600).map iterAt := by
  unfold iterations
  rw [ch_eq]
  simp only [List.flatMap_map, range_flatMap_map]
  have hlen : 26 * (26 * (10 * 10)) = 67600 := by norm_num
  rw [hlen]
  apply List.map_congr_left
  intro n _
  have h1 : n % (26 * (10 * 10)) % (10 * 10) / 10 = n % 100 / 10 := by omega
  have h2 : n % (26 * (10 * 10)) % (10 * 10) % 10 = n % 10 := by omega
  simp only [iterAt, h1, h2]

theorem foldl_flatMap_eq {α β γ : Type} (f : γ → β → γ) (g : α → List β) (l : List α) (b : γ) :
    (l.flatMap g).foldl f b = l.foldl (fun acc x => (g x).foldl f acc) b := by
  induction l generalizing b with
  | nil => rfl
  | cons x l ih => simp [List.flatMap_cons, List.foldl_append, ih]

/-! ## Characters and codes -/

theorem toNat_ofNat_small (n : Nat) (h : n < 128) : (Char.ofNat n).toNat = n := by
  interval_cases n <;> rfl

theorem sprintD_digit (i : Nat) (h : i < 10) : sprintD i = digitAt i := by
  interval_cases i <;> rfl

theorem codeAt_data (n : Nat) :
    (codeAt n).data = [Char.ofNat (65 + n / 2600), Char.ofNat (65 + n % 2600 / 100),
      Char.ofNat (48 + n % 100 / 10), Char.ofNat (48 + n % 10)] := by
  have h1 : n % 100 / 10 < 10 := by omega
  have h2 : n % 10 < 10 := by omega
  simp [codeAt, sprintD_digit _ h1, sprintD_digit _ h2, letterAt, digitAt, String.singleton]

theorem codeAt_toNat (n : Nat) (h : n < 67600) :
    (codeAt n).data.map Char.toNat =
      [65 + n / 2600, 65 + n % 2600 / 100, 48 + n % 100 / 10, 48 + n % 10] := by
  rw [codeAt_data n]
  have h0 : n / 2600 < 26 := by omega
  have h1 : n % 2600 / 100 < 26 := by omega
  have h2 : n % 100 / 10 < 10 := by omega
  have h3 : n % 10 < 10 := by omega
  simp only [List.map_cons, List.map_nil]
  rw [toNat_ofNat_small _ (by omega), toNat_ofNat_small _ (by omega),
    toNat_ofNat_small _ (by omega), toNat_ofNat_small _ (by omega)]

theorem codeAt_inj (n m : Nat) (hn : n < 67600) (hm : m < 67600) (h : codeAt n = codeAt m) :
    n = m := by
  have e := codeAt_toNat n hn
  rw [h, codeAt_toNat m hm] at e
  simp only [List.cons.injEq, and_true] at e
  omega

/-! ## The generator -/

theorem mapAssign_of_not_mem (m : Catalog) (k : String) (v : Product)
    (h : k ∉ m.map Prod.fst) : mapAssign m k v = m ++ [(k, v)] := by
  induction m with
  | nil => rfl
  | cons e m ih =>
    simp only [List.map_cons, List.mem_cons, not_or] at h
    have hne : ¬ e.1 = k := fun he => h.1 he.symm
    simp [mapAssign, hne, ih h.2]

theorem genBody_iterAt (k : Nat) (st : GenState) :
    genBody (iterAt k).1 (iterAt k).2.1 (iterAt k).2.2.1 (iterAt k).2.2.2 st =
      { products := mapAssign st.products (codeAt k)
          { Code := codeAt k, Name := "Product " ++ sprintD st.no },
        no := st.no + 1 } := rfl

theorem genSteps (k : Nat) (hk : k ≤ 67600) :
    ((List.range k).map iterAt).foldl
        (fun st it => genBody it.1 it.2.1 it.2.2.1 it.2.2.2 st) genInit =
      { products := (List.range k).map entryAt, no := k } := by
  induction k with
  | zero => rfl
  | succ k ih =>
    rw [List.range_succ, List.map_append, List.foldl_append, ih (by omega)]
    simp only [List.map_cons, List.map_nil, List.foldl_cons, List.foldl_nil, genBody_iterAt]
    have hnot : codeAt k ∉ ((List.range k).map entryAt).map Prod.fst := by
      simp only [List.map_map, List.mem_map, List.mem_range, Function.comp, entryAt]
      rintro ⟨n, hn, hcode⟩
      have := codeAt_inj n k (by omega) (by omega) hcode
      omega
    rw [mapAssign_of_not_mem _ _ _ hnot, List.map_append]
    rfl

theorem iterations_length : iterations.length = 67600 := by
  simp [iterations_eq]

theorem genAfter_eq (k : Nat) (hk : k ≤ 67600) :
    genAfter k = { products := (List.range k).map entryAt, no := k } := by
  unfold genAfter
  rw [iterations_eq, ← List.map_take, List.take_range, Nat.min_eq_left hk]
  exact genSteps k hk

theorem genAfter_ge (k : Nat) (hk : 67600 ≤ k) : genAfter k = genAfter 67600 := by
  unfold genAfter
  rw [List.take_of_length_le (by rw [iterations_length]; exact hk),
    List.take_of_length_le (by rw [iterations_length])]

theorem GenerateProduct_eq_foldl (prev : Catalog) :
    GenerateProduct prev =
      (iterations.foldl (fun st it => genBody it.1 it.2.1 it.2.2.1 it.2.2.2 st) genInit).products := by
  unfold GenerateProduct iterations
  simp only [foldl_flatMap_eq, List.foldl_map]

theorem GenerateProduct_eq_genAfter (prev : Catalog) :
    GenerateProduct prev = (genAfter 67600).products := by
  rw [GenerateProduct_eq_foldl]
  unfold genAfter
  rw [List.take_of_length_le (by rw [iterations_length])]

theorem GenerateProduct_eq (prev : Catalog) :
    GenerateProduct prev = (List.range 67600).map entryAt := by
  rw [GenerateProduct_eq_genAfter, genAfter_eq 67600 (le_refl _)]

/-! ## The pattern -/

theorem matchCode_codeAt (n : Nat) (h : n < 67600) : matchCode (codeAt n) = true := by
  have h0 : n / 2600 < 26 := by omega
  have h1 : n % 2600 / 100 < 26 := by omega
  have h2 : n % 100 / 10 < 10 := by omega
  have h3 : n % 10 < 10 := by omega
  unfold matchCode
  rw [codeAt_data n]
  simp only [isUpperAZ, isDigit09]
  rw [toNat_ofNat_small _ (by omega), toNat_ofNat_small _ (by omega),
    toNat_ofNat_small _ (by omega), toNat_ofNat_small _ (by omega)]
  simp only [Bool.and_eq_true, decide_eq_true_eq]
  omega

theorem matchCode_data (s : String) (h : matchCode s = true) :
    ∃ a b c d : Char, s.data = [a, b, c, d] ∧ (65 ≤ a.toNat ∧ a.toNat ≤ 90) ∧
      (65 ≤ b.toNat ∧ b.toNat ≤ 90) ∧ (48 ≤ c.toNat ∧ c.toNat ≤ 57) ∧
      (48 ≤ d.toNat ∧ d.toNat ≤ 57) := by
  unfold matchCode at h
  split at h
  · rename_i a b c d heq
    refine ⟨a, b, c, d, heq, ?_⟩
    simpa [isUpperAZ, isDigit09, and_assoc] using h
  · exact absurd h (by simp)

theorem matchCode_exists (s : String) (h : matchCode s = true) :
    ∃ n, n < 67600 ∧ s = codeAt n := by
  obtain ⟨a, b, c, d, hs, ha, hb, hc, hd⟩ := matchCode_data s h
  refine ⟨(a.toNat - 65) * 2600 + (b.toNat - 65) * 100 + (c.toNat - 48) * 10 + (d.toNat - 48),
    by omega, ?_⟩
  generalize hn : (a.toNat - 65) * 2600 + (b.toNat - 65) * 100 + (c.toNat - 48) * 10
    + (d.toNat - 48) = n
  have hlt : n < 67600 := by omega
  have e0 : 65 + n / 2600 = a.toNat := by omega
  have e1 : 65 + n % 2600 / 100 = b.toNat := by omega
  have e2 : 48 + n % 100 / 10 = c.toNat := by omega
  have e3 : 48 + n % 10 = d.toNat := by omega
  have hdata : s.data = (codeAt n).data := by
    rw [codeAt_data n, e0, e1, e2, e3, hs]
    simp only [Char.ofNat_toNat]
  exact String.ext hdata

theorem matchCode_iff (s : String) : matchCode s = true ↔ ∃ n, n < 67600 ∧ s = codeAt n := by
  constructor
  · exact matchCode_exists s
  · rintro ⟨n, hn, rfl⟩
    exact matchCode_codeAt n hn

theorem matchCode_ne_empty (s : String) (h : matchCode s = true) : s ≠ "" := by
  obtain ⟨a, b, c, d, hs, -⟩ := matchCode_data s h
  intro he
  rw [he] at hs
  exact absurd hs (by simp)

/-! ## The scan -/

theorem findProduct_of_forall_ne (es : Catalog) (code : String)
    (h : ∀ e ∈ es, e.2.Code ≠ code) : findProduct es code = Product.zero := by
  induction es with
  | nil => rfl
  | cons e es ih =>
    have hne : ¬ code = e.2.Code := fun he => h e (List.mem_cons_self _ _) he.symm
    simp only [findProduct, hne, if_false]
    exact ih (fun x hx => h x (List.mem_cons_of_mem _ hx))

theorem findProduct_of_mem (es : Catalog) (e : String × Product)
    (hnd : (es.map (fun x => x.2.Code)).Nodup) (he : e ∈ es) :
    findProduct es e.2.Code = e.2 := by
  induction es with
  | nil => exact absurd he (List.not_mem_nil _)
  | cons x es ih =>
    simp only [List.map_cons, List.nodup_cons, List.mem_map, not_exists, not_and] at hnd
    rcases List.mem_cons.mp he with rfl | hmem
    · simp [findProduct]
    · have hne : ¬ e.2.Code = x.2.Code := fun hc => hnd.1 e hmem hc
      simp only [findProduct, hne, if_false]
      exact ih hnd.2 hmem

theorem findProduct_found (es : Catalog) (code : String) (h : ∃ e ∈ es, e.2.Code = code) :
    ∃ e ∈ es, e.2.Code = code ∧ findProduct es code = e.2 := by
  induction es with
  | nil =>
    obtain ⟨e, he, -⟩ := h
    exact absurd he (List.not_mem_nil _)
  | cons x es ih =>
    by_cases hx : code = x.2.Code
    · exact ⟨x, List.mem_cons_self _ _, hx.symm, by simp [findProduct, hx]⟩
    · have h2 : ∃ e ∈ es, e.2.Code = code := by
        obtain ⟨e, he, hc⟩ := h
        rcases List.mem_cons.mp he with rfl | hmem
        · exact absurd hc.symm hx
        · exact ⟨e, hmem, hc⟩
      obtain ⟨e, he, hc, hf⟩ := ih h2
      exact ⟨e, List.mem_cons_of_mem _ he, hc, by simp only [findProduct, hx, if_false]; exact hf⟩

theorem mapIndex_of_mem (m : Catalog) (k : String) (v : Product)
    (hnd : keysNodup m) (h : (k, v) ∈ m) : mapIndex m k = some v := by
  induction m with
  | nil => exact absurd h (List.not_mem_nil _)
  | cons x m ih =>
    simp only [keysNodup, List.map_cons, List.nodup_cons, List.mem_map, not_exists, not_and] at hnd
    rcases List.mem_cons.mp h with rfl | hmem
    · simp [mapIndex]
    · have hne : ¬ x.1 = k := fun hc => hnd.1 (k, v) hmem hc.symm
      simp only [mapIndex, hne, if_false]
      exact ih hnd.2 hmem

theorem mapIndex_of_not_mem (m : Catalog) (k : String) (h : k ∉ m.map Prod.fst) :
    mapIndex m k = none := by
  induction m with
  | nil => rfl
  | cons x m ih =>
    simp only [List.map_cons, List.mem_cons, not_or] at h
    have hne : ¬ x.1 = k := fun hc => h.1 hc.symm
    simp only [mapIndex, hne, if_false]
    exact ih h.2

theorem mapIndex_some_mem (m : Catalog) (k : String) (p : Product)
    (h : mapIndex m k = some p) : (k, p) ∈ m := by
  induction m with
  | nil => simp [mapIndex] at h
  | cons x m ih =>
    by_cases hx : x.1 = k
    · simp only [mapIndex, hx, if_true, Option.some.injEq] at h
      rw [← h, ← hx]
      exact List.mem_cons_self _ _
    · simp only [mapIndex, hx, if_false] at h
      exact List.mem_cons_of_mem _ (ih h)

theorem mapIndex_none_not_mem (m : Catalog) (k : String) (h : mapIndex m k = none) :
    k ∉ m.map Prod.fst := by
  induction m with
  | nil => simp
  | cons x m ih =>
    by_cases hx : x.1 = k
    · simp [mapIndex, hx] at h
    · simp only [mapIndex, hx, if_false] at h
      simp only [List.map_cons, List.mem_cons, not_or]
      exact ⟨fun hc => hx hc.symm, ih h⟩

theorem codes_eq_keys (m : Catalog) (hkey : ∀ e ∈ m, e.1 = e.2.Code) :
    m.map (fun e => e.2.Code) = m.map Prod.fst :=
  List.map_congr_left (fun e he => (hkey e he).symm)

/-! ## The generated catalog -/

theorem mem_GenerateProduct (prev : Catalog) (e : String × Product) :
    e ∈ GenerateProduct prev ↔ ∃ n, n < 67600 ∧ e = entryAt n := by
  rw [GenerateProduct_eq]
  simp only [List.mem_map, List.mem_range]
  constructor
  · rintro ⟨n, hn, rfl⟩
    exact ⟨n, hn, rfl⟩
  · rintro ⟨n, hn, rfl⟩
    exact ⟨n, hn, rfl⟩

theorem GenerateProduct_codes (prev : Catalog) :
    (GenerateProduct prev).map (fun e => e.2.Code) = (List.range 67600).map codeAt := by
  rw [GenerateProduct_eq, List.map_map]
  rfl

theorem GenerateProduct_keys (prev : Catalog) :
    (GenerateProduct prev).map Prod.fst = (List.range 67600).map codeAt := by
  rw [GenerateProduct_eq, List.map_map]
  rfl

theorem codeAt_range_nodup : ((List.range 67600).map codeAt).Nodup := by
  apply List.Nodup.map_on _ (List.nodup_range _)
  intro n hn m hm h
  exact codeAt_inj n m (List.mem_range.mp hn) (List.mem_range.mp hm) h

theorem GenerateProduct_keysNodup (prev : Catalog) : keysNodup (GenerateProduct prev) := by
  unfold keysNodup
  rw [GenerateProduct_keys]
  exact codeAt_range_nodup

theorem GenerateProduct_codesNodup (prev : Catalog) :
    ((GenerateProduct prev).map (fun e => e.2.Code)).Nodup := by
  rw [GenerateProduct_codes]
  exact codeAt_range_nodup

theorem scan_generated (prev es : Catalog) (n : Nat) (hes : es.Perm (GenerateProduct prev))
    (hn : n < 67600) : findProduct es (codeAt n) = (entryAt n).2 := by
  have hmem : entryAt n ∈ es := hes.mem_iff.mpr ((mem_GenerateProduct prev _).mpr ⟨n, hn, rfl⟩)
  have hnd : (es.map (fun x => x.2.Code)).Nodup :=
    ((hes.map _).nodup_iff).mpr (GenerateProduct_codesNodup prev)
  exact findProduct_of_mem es (entryAt n) hnd hmem

theorem mapIndex_generated (prev : Catalog) (n : Nat) (hn : n < 67600) :
    mapIndex (GenerateProduct prev) (codeAt n) = some (entryAt n).2 :=
  mapIndex_of_mem _ _ _ (GenerateProduct_keysNodup prev)
    ((mem_GenerateProduct prev (entryAt n)).mpr ⟨n, hn, rfl⟩)

theorem ch_get (a : Nat) (ha : a < 26) : ch[a]? = some (letterAt a) := by
  rw [ch_eq, List.getElem?_map, List.getElem?_range ha]
  rfl

theorem iterations_get (n : Nat) (hn : n < 67600) : iterations[n]? = some (iterAt n) := by
  rw [iterations_eq, List.getElem?_map, List.getElem?_range hn]
  rfl

/-! ## The handler -/

theorem handleProduct_of_no_match (es : Catalog) (code : String) (h : matchCode code = false) :
    handleProduct es code = Response.error "code is invalid" 400 := by
  simp [handleProduct, h, StatusBadRequest]

theorem handleProduct_of_match (es : Catalog) (code : String) (h : matchCode code = true) :
    handleProduct es code =
      if (findProduct es code).Code = "" then Response.error "Data Not Found" 400
      else Response.write "text/html; charset=utf-8" (renderBody (findProduct es code)) := by
  simp [handleProduct, h, StatusBadRequest, renderBody]

theorem handleProduct_found (es : Catalog) (code : String) (p : Product)
    (h : matchCode code = true) (hf : findProduct es code = p) (hp : p.Code = code) :
    handleProduct es code = Response.write "text/html; charset=utf-8" (renderBody p) := by
  have hne : ¬ p.Code = "" := by
    rw [hp]
    exact matchCode_ne_empty code h
  rw [handleProduct_of_match es code h, hf, if_neg hne]

theorem handleProduct_generated_at (prev es : Catalog) (n : Nat)
    (hes : es.Perm (GenerateProduct prev)) (hn : n < 67600) :
    handleProduct es (codeAt n) =
      Response.write "text/html; charset=utf-8" (renderBody (entryAt n).2) :=
  handleProduct_found es (codeAt n) (entryAt n).2 (matchCode_codeAt n hn)
    (scan_generated prev es n hes hn) rfl

theorem findProduct_Code_empty_iff (es : Catalog) (code : String) (h : matchCode code = true) :
    (findProduct es code).Code = "" ↔ ∀ e ∈ es, e.2.Code ≠ code := by
  constructor
  · intro hz e he hc
    obtain ⟨x, -, hx, hf⟩ := findProduct_found es code ⟨e, he, hc⟩
    rw [hf, hx] at hz
    exact matchCode_ne_empty code h hz
  · intro hall
    rw [findProduct_of_forall_ne es code hall]
    rfl

/-! ## Decimal names -/

theorem digitChar_value (k : Nat) (h : k < 10) : (Nat.digitChar k).toNat - 48 = k := by
  interval_cases k <;> rfl

theorem decimalValue_toDigitsCore (fuel : Nat) :
    ∀ (n : Nat) (ds : List Char), n < fuel →
      decimalValue 0 (Nat.toDigitsCore 10 fuel n ds) = decimalValue n ds := by
  induction fuel with
  | zero =>
    intro n ds h
    exact absurd h (Nat.not_lt_zero n)
  | succ fuel ih =>
    intro n ds h
    have hd : (Nat.digitChar (n % 10)).toNat - 48 = n % 10 :=
      digitChar_value _ (Nat.mod_lt n (by norm_num))
    by_cases hz : n / 10 = 0
    · simp only [Nat.toDigitsCore, hz, if_true, decimalValue, List.foldl_cons, hd]
      congr 1
      omega
    · have hlt : n / 10 < fuel := by omega
      simp only [Nat.toDigitsCore, hz, if_false]
      rw [ih (n / 10) _ hlt]
      simp only [decimalValue, List.foldl_cons, hd]
      congr 1
      omega

theorem decimalValue_sprintD (n : Nat) : decimalValue 0 (sprintD n).data = n := by
  have h := decimalValue_toDigitsCore (n + 1) n [] (Nat.lt_succ_self n)
  simpa [sprintD, Nat.repr, Nat.toDigits, List.asString, decimalValue] using h

theorem sprintD_inj (n m : Nat) (h : sprintD n = sprintD m) : n = m := by
  have hn := decimalValue_sprintD n
  rw [h, decimalValue_sprintD m] at hn
  exact hn.symm

theorem name_inj (n m : Nat) (h : "Product " ++ sprintD n = "Product " ++ sprintD m) :
    n = m := by
  apply sprintD_inj
  have hd := congrArg String.data h
  simp only [String.data_append] at hd
  exact String.ext (List.append_cancel_left hd)

theorem GenerateProduct_names (prev : Catalog) :
    (GenerateProduct prev).map (fun e => e.2.Name) =
      (List.range 67600).map (fun n => "Product " ++ sprintD n) := by
  rw [GenerateProduct_eq, List.map_map]
  rfl

theorem genAfter_succ (k : Nat) (hk : k < 67600) :
    (genAfter (k + 1)).products = (genAfter k).products ++ [entryAt k] := by
  rw [genAfter_eq (k + 1) (by omega), genAfter_eq k (by omega)]
  simp only [List.range_succ, List.map_append, List.map_cons, List.map_nil]

/-! ## Properties of the service -/

/-- C1: for every code accepted by the pattern, and for every order in which the
scan visits the generated catalog, `findProduct` returns a record whose `Code` is
that code, and it is the record that `GenerateProduct` stored under that key (so
the `Name` is the one assigned at generation time). -/
theorem findProduct_generated (prev es : Catalog) (c : String)
    (hes : es.Perm (GenerateProduct prev)) (hc : matchCode c = true) :
    (findProduct es c).Code = c ∧
      mapIndex (GenerateProduct prev) c = some (findProduct es c) := by
  obtain ⟨n, hn, rfl⟩ := matchCode_exists c hc
  rw [scan_generated prev es n hes hn, mapIndex_generated prev n hn]
  exact ⟨rfl, rfl⟩

theorem findProduct_generated_witness :
    (GenerateProduct []).reverse.Perm (GenerateProduct []) ∧ matchCode "QX47" = true ∧
      (findProduct (GenerateProduct []).reverse "QX47").Code = "QX47" ∧
      mapIndex (GenerateProduct []) "QX47" =
        some (findProduct (GenerateProduct []).reverse "QX47") :=
  ⟨List.reverse_perm _, by decide,
    findProduct_generated [] (GenerateProduct []).reverse "QX47" (List.reverse_perm _) (by decide)⟩

/-- C2: after `GenerateProduct` the catalog holds exactly 67,600 = 26*26*10*10
records, and no two of them have the same `Code`. -/
theorem GenerateProduct_count (prev : Catalog) :
    (GenerateProduct prev).length = 67600 ∧ 67600 = 26 * 26 * 10 * 10 ∧
      ((GenerateProduct prev).map (fun e => e.2.Code)).Nodup := by
  refine ⟨?_, by norm_num, GenerateProduct_codesNodup prev⟩
  rw [GenerateProduct_eq]
  simp

/-- C3, as stated, fails: `zz99` is rejected by the pattern and the reply has
status 400, but its body is not `code is invalid`: `http.Error` ends the message
with a newline. -/
theorem handleProduct_invalid_body_counterexample :
    matchCode "zz99" = false ∧ (handleProduct [] "zz99").status = 400 ∧
      ¬ ((handleProduct [] "zz99").status = 400 ∧
        (handleProduct [] "zz99").body = "code is invalid") := by
  decide

/-- C3, amended: for every string that the pattern rejects and every catalog,
`handleProduct` calls `http.Error` with the message `code is invalid` and status
400, so the reply has status 400 and the body `code is invalid` followed by a
newline, whatever the catalog is; the strings `a123`, `AB1`, `AB123`, `zz99` and
the empty string are rejected. -/
theorem handleProduct_invalid (products : Catalog) (code : String)
    (h : matchCode code = false) :
    handleProduct products code = Response.error "code is invalid" 400 ∧
      (handleProduct products code).status = 400 ∧
      (handleProduct products code).body = "code is invalid\n" ∧
      (∀ other : Catalog, handleProduct other code = handleProduct products code) ∧
      (∀ s ∈ ["a123", "AB1", "AB123", "zz99", ""], matchCode s = false) := by
  have key : ∀ m : Catalog, handleProduct m code = Response.error "code is invalid" 400 :=
    fun m => handleProduct_of_no_match m code h
  refine ⟨key products, ?_, ?_, fun other => by rw [key other, key products], by decide⟩
  · rw [key products]
    rfl
  · rw [key products]
    rfl

theorem handleProduct_invalid_witness :
    matchCode "zz99" = false ∧
      handleProduct [("AA00", ⟨"zz99", "x"⟩)] "zz99" = Response.error "code is invalid" 400 ∧
      (handleProduct [("AA00", ⟨"zz99", "x"⟩)] "zz99").status = 400 ∧
      (handleProduct [("AA00", ⟨"zz99", "x"⟩)] "zz99").body = "code is invalid\n" :=
  have h := handleProduct_invalid [("AA00", ⟨"zz99", "x"⟩)] "zz99" (by decide)
  ⟨by decide, h.1, h.2.1, h.2.2.1⟩

/-- C4: for every code accepted by the pattern, `handleProduct` over the generated
catalog (visited in any order) writes a reply of status 200 with Content-Type
`text/html; charset=utf-8` whose body is the `font` element holding the code and
the name generated for it; for `AA00` the body holds
`Product Code : AA00 Name :Product 0`. -/
theorem handleProduct_generated (prev es : Catalog) (code : String)
    (hes : es.Perm (GenerateProduct prev)) (hc : matchCode code = true) :
    (∃ name, mapIndex (GenerateProduct prev) code = some { Code := code, Name := name } ∧
      handleProduct es code = Response.write "text/html; charset=utf-8"
        ("<font size=\"10\">Product Code : " ++ code ++ " Name :" ++ name ++ "</font>")) ∧
      (handleProduct es code).status = 200 ∧
      handleProduct es "AA00" = Response.write "text/html; charset=utf-8"
        ("<font size=\"10\">" ++ "Product Code : AA00 Name :Product 0" ++ "</font>") := by
  obtain ⟨n, hn, rfl⟩ := matchCode_exists code hc
  have h1 := handleProduct_generated_at prev es n hes hn
  refine ⟨⟨"Product " ++ sprintD n, mapIndex_generated prev n hn, h1⟩, ?_, ?_⟩
  · rw [h1]
    rfl
  · exact handleProduct_generated_at prev es 0 hes (by norm_num)

theorem handleProduct_generated_witness :
    (GenerateProduct []).reverse.Perm (GenerateProduct []) ∧ matchCode "ZZ99" = true ∧
      (handleProduct (GenerateProduct []).reverse "ZZ99").status = 200 :=
  ⟨List.reverse_perm _, by decide,
    (handleProduct_generated [] (GenerateProduct []).reverse "ZZ99" (List.reverse_perm _)
      (by decide)).2.1⟩

/-- C5: the keys of the generated catalog are exactly the strings accepted by the
pattern, and over the generated catalog (visited in any order) `handleProduct`
answers `Data Not Found` for no input code. -/
theorem generated_keys_eq_pattern (prev : Catalog) :
    (∀ s : String, s ∈ (GenerateProduct prev).map Prod.fst ↔ matchCode s = true) ∧
      (∀ es : Catalog, es.Perm (GenerateProduct prev) → ∀ (code : String) (status : Nat),
        handleProduct es code ≠ Response.error "Data Not Found" status) := by
  constructor
  · intro s
    rw [GenerateProduct_keys, matchCode_iff]
    simp only [List.mem_map, List.mem_range]
    constructor
    · rintro ⟨n, hn, rfl⟩
      exact ⟨n, hn, rfl⟩
    · rintro ⟨n, hn, rfl⟩
      exact ⟨n, hn, rfl⟩
  · intro es hes code status
    cases hm : matchCode code with
    | false =>
      rw [handleProduct_of_no_match es code hm]
      intro h
      injection h with h1 _
      exact absurd h1 (by decide)
    | true =>
      obtain ⟨n, hn, rfl⟩ := matchCode_exists code hm
      rw [handleProduct_generated_at prev es n hes hn]
      intro h
      cases h

/-- C6: generation is deterministic: whatever the previous contents of the global
catalog, two runs of `GenerateProduct` leave the same catalog, with the same keys
and the same record under each key. -/
theorem GenerateProduct_deterministic (prev prev2 : Catalog) :
    GenerateProduct prev = GenerateProduct prev2 ∧
      (∀ k : String, mapIndex (GenerateProduct prev) k = mapIndex (GenerateProduct prev2) k) ∧
      (∀ s : String, s ∈ (GenerateProduct prev).map Prod.fst ↔
        s ∈ (GenerateProduct prev2).map Prod.fst) := by
  have h : GenerateProduct prev = GenerateProduct prev2 := rfl
  exact ⟨h, fun k => by rw [h], fun s => by rw [h]⟩

/-- C7: after any number `k` of executions of the loop body, and so in the catalog
that `GenerateProduct` returns, every key equals the `Code` of the record stored
under it. -/
theorem key_eq_Code_invariant (prev : Catalog) (k : Nat) :
    (∀ e ∈ (genAfter k).products, e.1 = e.2.Code) ∧
      (genAfter iterations.length).products = GenerateProduct prev ∧
      (∀ e ∈ GenerateProduct prev, e.1 = e.2.Code) := by
  refine ⟨?_, ?_, ?_⟩
  · intro e he
    have hk : genAfter k = genAfter (min k 67600) := by
      rcases Nat.le_total k 67600 with h | h
      · rw [Nat.min_eq_left h]
      · rw [Nat.min_eq_right h, genAfter_ge k h]
    rw [hk, genAfter_eq _ (Nat.min_le_right _ _)] at he
    simp only [List.mem_map, List.mem_range] at he
    obtain ⟨n, -, rfl⟩ := he
    rfl
  · rw [iterations_length, GenerateProduct_eq_genAfter]
  · intro e he
    obtain ⟨n, -, rfl⟩ := (mem_GenerateProduct prev e).mp he
    rfl

/-- C8: names follow the 0-based generation order: for letters number `a`, `b` of
the alphabet and digits `i`, `j`, the loop body for that code is execution number
`N = ((a*26 + b)*10 + i)*10 + j`, the counter `no` is `N` when it runs, and the
catalog holds under that code the record named `Product N` in decimal; so `AA00`
is `Product 0`, `AA01` is `Product 1`, `AB00` is `Product 100` and `ZZ99` is
`Product 67599`. -/
theorem names_sequential (prev : Catalog) (a b i j : Nat)
    (ha : a < 26) (hb : b < 26) (hi : i < 10) (hj : j < 10) :
    (∃ c c2 : String, ch[a]? = some c ∧ ch[b]? = some c2 ∧
      iterations[((a * 26 + b) * 10 + i) * 10 + j]? = some (c, c2, i, j) ∧
      (genAfter (((a * 26 + b) * 10 + i) * 10 + j)).no = ((a * 26 + b) * 10 + i) * 10 + j ∧
      mapIndex (GenerateProduct prev) (c ++ c2 ++ sprintD i ++ sprintD j) =
        some { Code := c ++ c2 ++ sprintD i ++ sprintD j,
               Name := "Product " ++ sprintD (((a * 26 + b) * 10 + i) * 10 + j) }) ∧
      mapIndex (GenerateProduct prev) "AA00" = some { Code := "AA00", Name := "Product 0" } ∧
      mapIndex (GenerateProduct prev) "AA01" = some { Code := "AA01", Name := "Product 1" } ∧
      mapIndex (GenerateProduct prev) "AB00" = some { Code := "AB00", Name := "Product 100" } ∧
      mapIndex (GenerateProduct prev) "ZZ99" =
        some { Code := "ZZ99", Name := "Product 67599" } := by
  refine ⟨⟨letterAt a, letterAt b, ch_get a ha, ch_get b hb, ?_, ?_, ?_⟩, ?_, ?_, ?_, ?_⟩
  · generalize hN : ((a * 26 + b) * 10 + i) * 10 + j = N
    have hlt : N < 67600 := by omega
    rw [iterations_get N hlt]
    have e0 : N / 2600 = a := by omega
    have e1 : N % 2600 / 100 = b := by omega
    have e2 : N % 100 / 10 = i := by omega
    have e3 : N % 10 = j := by omega
    simp only [iterAt, e0, e1, e2, e3]
  · rw [genAfter_eq _ (by omega)]
  · generalize hN : ((a * 26 + b) * 10 + i) * 10 + j = N
    have hlt : N < 67600 := by omega
    have e0 : N / 2600 = a := by omega
    have e1 : N % 2600 / 100 = b := by omega
    have e2 : N % 100 / 10 = i := by omega
    have e3 : N % 10 = j := by omega
    have h := mapIndex_generated prev N hlt
    simp only [entryAt, codeAt, e0, e1, e2, e3] at h
    exact h
  · exact mapIndex_generated prev 0 (by norm_num)
  · exact mapIndex_generated prev 1 (by norm_num)
  · exact mapIndex_generated prev 100 (by norm_num)
  · exact mapIndex_generated prev 67599 (by norm_num)

theorem names_sequential_witness :
    2 < 26 ∧ 1 < 26 ∧ 3 < 10 ∧ 4 < 10 ∧
    mapIndex (GenerateProduct []) ("C" ++ "B" ++ sprintD 3 ++ sprintD 4) =
      some { Code := "C" ++ "B" ++ sprintD 3 ++ sprintD 4, Name := "Product " ++ sprintD 5334 } := by
  refine ⟨by decide, by decide, by decide, by decide, ?_⟩
  obtain ⟨⟨c, c2, hc, hc2, -, -, h⟩, -⟩ :=
    names_sequential [] 2 1 3 4 (by decide) (by decide) (by decide) (by decide)
  have e1 : c = "C" := by
    have : ch[2]? = some "C" := rfl
    rw [this] at hc
    exact (Option.some.inj hc).symm
  have e2 : c2 = "B" := by
    have : ch[1]? = some "B" := rfl
    rw [this] at hc2
    exact (Option.some.inj hc2).symm
  rw [e1, e2] at h
  exact h

/-- C9, as stated, fails: over the empty catalog no record has the accepted code
`AB12` and the reply has status 400, but its body is not `Data Not Found`:
`http.Error` ends the message with a newline. -/
theorem handleProduct_notFound_body_counterexample :
    matchCode "AB12" = true ∧ (∀ e ∈ ([] : Catalog), e.2.Code ≠ "AB12") ∧
      (handleProduct [] "AB12").status = 400 ∧
      ¬ ((handleProduct [] "AB12").status = 400 ∧
        (handleProduct [] "AB12").body = "Data Not Found") := by
  decide

/-- C9, amended: for every catalog and every code accepted by the pattern,
`handleProduct` calls `http.Error` with the message `Data Not Found` and status
400, so that the reply has status 400 and the body `Data Not Found` followed by a
newline, exactly when no record of the catalog has that `Code`; when some record
has it, the reply has status 200 and renders a record of the catalog with that
`Code`.  The empty `Code` tested by the handler is returned exactly when nothing
was found, since an accepted code is not empty. -/
theorem handleProduct_notFound_iff (es : Catalog) (code : String)
    (hc : matchCode code = true) :
    (handleProduct es code = Response.error "Data Not Found" 400 ↔
        ∀ e ∈ es, e.2.Code ≠ code) ∧
      (((handleProduct es code).status = 400 ∧
          (handleProduct es code).body = "Data Not Found\n") ↔
        ∀ e ∈ es, e.2.Code ≠ code) ∧
      ((∃ e ∈ es, e.2.Code = code) →
        ∃ e ∈ es, e.2.Code = code ∧ findProduct es code = e.2 ∧
          (handleProduct es code).status = 200 ∧
          handleProduct es code = Response.write "text/html; charset=utf-8"
            ("<font size=\"10\">Product Code : " ++ e.2.Code ++ " Name :" ++ e.2.Name
              ++ "</font>")) ∧
      (code ≠ "" ∧ ((findProduct es code).Code = "" ↔ ∀ e ∈ es, e.2.Code ≠ code)) := by
  have hsent := findProduct_Code_empty_iff es code hc
  refine ⟨?_, ?_, ?_, matchCode_ne_empty code hc, hsent⟩
  · rw [handleProduct_of_match es code hc, ← hsent]
    by_cases hz : (findProduct es code).Code = ""
    · simp [hz]
    · simp [hz]
  · rw [handleProduct_of_match es code hc, ← hsent]
    by_cases hz : (findProduct es code).Code = ""
    · simp [hz, Response.status, Response.body]
    · simp [hz, Response.status, StatusOK]
  · intro hex
    obtain ⟨e, he, hcode, hf⟩ := findProduct_found es code hex
    have hw := handleProduct_found es code e.2 hc hf hcode
    refine ⟨e, he, hcode, hf, ?_, hw⟩
    rw [hw]
    rfl

theorem handleProduct_notFound_iff_witness :
    matchCode "AB12" = true ∧
      (handleProduct [("k", ⟨"AB13", "n"⟩)] "AB12" = Response.error "Data Not Found" 400 ↔
        ∀ e ∈ [(("k", ⟨"AB13", "n"⟩) : String × Product)], e.2.Code ≠ "AB12") ∧
      (((handleProduct [("k", ⟨"AB13", "n"⟩)] "AB12").status = 400 ∧
          (handleProduct [("k", ⟨"AB13", "n"⟩)] "AB12").body = "Data Not Found\n") ↔
        ∀ e ∈ [(("k", ⟨"AB13", "n"⟩) : String × Product)], e.2.Code ≠ "AB12") :=
  have h := handleProduct_notFound_iff [("k", ⟨"AB13", "n"⟩)] "AB12" (by decide)
  ⟨by decide, h.1, h.2.1⟩

/-- C10: the scan agrees with keyed access: for every catalog in which each key
is the `Code` of its record, visited in any order, and for every code,
`findProduct` returns the record stored under that key when the key is present
and the empty `Product` (empty `Code` and `Name`) when it is absent. -/
theorem findProduct_eq_mapIndex (m es : Catalog) (code : String)
    (hnd : keysNodup m) (hkey : ∀ e ∈ m, e.1 = e.2.Code) (hes : es.Perm m) :
    (∀ p : Product, mapIndex m code = some p → findProduct es code = p) ∧
      (mapIndex m code = none → findProduct es code = { Code := "", Name := "" }) ∧
      (mapIndex m code = none ↔ code ∉ m.map Prod.fst) := by
  have hcodes : (es.map (fun x => x.2.Code)).Nodup := by
    rw [(hes.map _).nodup_iff, codes_eq_keys m hkey]
    exact hnd
  refine ⟨?_, ?_, ?_⟩
  · intro p hp
    have hmem : (code, p) ∈ m := mapIndex_some_mem m code p hp
    have hc : code = p.Code := hkey (code, p) hmem
    have h := findProduct_of_mem es (code, p) hcodes (hes.mem_iff.mpr hmem)
    rw [← hc] at h
    exact h
  · intro hnone
    have hnot := mapIndex_none_not_mem m code hnone
    apply findProduct_of_forall_ne
    intro e he hc
    have hem : e ∈ m := hes.mem_iff.mp he
    apply hnot
    rw [← hc, ← hkey e hem]
    exact List.mem_map_of_mem _ hem
  · exact ⟨mapIndex_none_not_mem m code, mapIndex_of_not_mem m code⟩

theorem findProduct_eq_mapIndex_witness :
    keysNodup [("AA00", ⟨"AA00", "x"⟩), ("b", ⟨"b", "y"⟩)] ∧
      (∀ e ∈ [(("AA00", ⟨"AA00", "x"⟩) : String × Product), ("b", ⟨"b", "y"⟩)], e.1 = e.2.Code) ∧
      [(("b", ⟨"b", "y"⟩) : String × Product), ("AA00", ⟨"AA00", "x"⟩)].Perm
        [("AA00", ⟨"AA00", "x"⟩), ("b", ⟨"b", "y"⟩)] ∧
      (∀ p : Product, mapIndex [("AA00", ⟨"AA00", "x"⟩), ("b", ⟨"b", "y"⟩)] "b" = some p →
        findProduct [("b", ⟨"b", "y"⟩), ("AA00", ⟨"AA00", "x"⟩)] "b" = p) :=
  have hnd : keysNodup [("AA00", ⟨"AA00", "x"⟩), ("b", ⟨"b", "y"⟩)] := by
    unfold keysNodup
    decide
  have hkey : ∀ e ∈ [(("AA00", ⟨"AA00", "x"⟩) : String × Product), ("b", ⟨"b", "y"⟩)],
      e.1 = e.2.Code := by
    decide
  have hperm : [(("b", ⟨"b", "y"⟩) : String × Product), ("AA00", ⟨"AA00", "x"⟩)].Perm
      [("AA00", ⟨"AA00", "x"⟩), ("b", ⟨"b", "y"⟩)] := List.Perm.swap _ _ _
  ⟨hnd, hkey, hperm, (findProduct_eq_mapIndex _ _ "b" hnd hkey hperm).1⟩

/-- C11: `findProduct` does not depend on the order of the scan: when the records
of a catalog have pairwise distinct `Code`s, any two orders of its entries give
the same returned record, for every code. -/
theorem findProduct_order_independent (es es2 : Catalog) (code : String)
    (hnd : (es.map (fun e => e.2.Code)).Nodup) (hperm : es2.Perm es) :
    findProduct es2 code = findProduct es code := by
  have hnd2 : (es2.map (fun e => e.2.Code)).Nodup := ((hperm.map _).nodup_iff).mpr hnd
  by_cases hex : ∃ e ∈ es, e.2.Code = code
  · obtain ⟨e, he, rfl⟩ := hex
    rw [findProduct_of_mem es e hnd he, findProduct_of_mem es2 e hnd2 (hperm.mem_iff.mpr he)]
  · have hall : ∀ e ∈ es, e.2.Code ≠ code := fun e he hc => hex ⟨e, he, hc⟩
    have hall2 : ∀ e ∈ es2, e.2.Code ≠ code := fun e he => hall e (hperm.mem_iff.mp he)
    rw [findProduct_of_forall_ne es code hall, findProduct_of_forall_ne es2 code hall2]

theorem findProduct_order_independent_witness :
    ([(("p", ⟨"AA00", "x"⟩) : String × Product), ("q", ⟨"AA01", "y"⟩)].map
        (fun e => e.2.Code)).Nodup ∧
      [(("q", ⟨"AA01", "y"⟩) : String × Product), ("p", ⟨"AA00", "x"⟩)].Perm
        [("p", ⟨"AA00", "x"⟩), ("q", ⟨"AA01", "y"⟩)] ∧
      findProduct [("q", ⟨"AA01", "y"⟩), ("p", ⟨"AA00", "x"⟩)] "AA00" =
        findProduct [("p", ⟨"AA00", "x"⟩), ("q", ⟨"AA01", "y"⟩)] "AA00" :=
  have hnd : ([(("p", ⟨"AA00", "x"⟩) : String × Product), ("q", ⟨"AA01", "y"⟩)].map
      (fun e => e.2.Code)).Nodup := by decide
  have hperm : [(("q", ⟨"AA01", "y"⟩) : String × Product), ("p", ⟨"AA00", "x"⟩)].Perm
      [("p", ⟨"AA00", "x"⟩), ("q", ⟨"AA01", "y"⟩)] := List.Perm.swap _ _ _
  ⟨hnd, hperm, findProduct_order_independent _ _ "AA00" hnd hperm⟩

/-- C12: for every catalog and every code, `findProduct` returns the empty
`Product` (empty `Code` and `Name`) when no record has that `Code`, and otherwise
returns a record of the catalog whose `Code` is the code; a returned record whose
`Code` differs from the code is the empty `Product`. -/
theorem findProduct_result (es : Catalog) (code : String) :
    ((∀ e ∈ es, e.2.Code ≠ code) → findProduct es code = { Code := "", Name := "" }) ∧
      ((∃ e ∈ es, e.2.Code = code) →
        ∃ e ∈ es, e.2.Code = code ∧ findProduct es code = e.2) ∧
      ((findProduct es code).Code ≠ code → findProduct es code = { Code := "", Name := "" }) := by
  refine ⟨findProduct_of_forall_ne es code, findProduct_found es code, ?_⟩
  intro hne
  apply findProduct_of_forall_ne
  intro e he hc
  obtain ⟨x, -, hx, hf⟩ := findProduct_found es code ⟨e, he, hc⟩
  rw [hf] at hne
  exact hne hx

/-- C13: in the generated catalog distinct codes carry distinct names, the names
are exactly `Product N` for `0 <= N < 67600`, and every such `N` names exactly one
record; each execution of the loop body adds a new entry, named by its own
number, and overwrites none. -/
theorem names_injective_onto (prev : Catalog) :
    (∀ (c1 c2 : String) (p1 p2 : Product), mapIndex (GenerateProduct prev) c1 = some p1 →
        mapIndex (GenerateProduct prev) c2 = some p2 → c1 ≠ c2 → p1.Name ≠ p2.Name) ∧
      (∀ name : String, name ∈ (GenerateProduct prev).map (fun e => e.2.Name) ↔
        ∃ N, N < 67600 ∧ name = "Product " ++ sprintD N) ∧
      (∀ N, N < 67600 →
        ∃! e, e ∈ GenerateProduct prev ∧ e.2.Name = "Product " ++ sprintD N) ∧
      ((GenerateProduct prev).map (fun e => e.2.Name)).Nodup ∧
      (∀ k, k < 67600 → ∃ c : String, (genAfter (k + 1)).products =
        (genAfter k).products ++ [(c, { Code := c, Name := "Product " ++ sprintD k })]) ∧
      sprintD 0 = "0" ∧ sprintD 67599 = "67599" := by
  refine ⟨?_, ?_, ?_, ?_, ?_, rfl, rfl⟩
  · intro c1 c2 p1 p2 h1 h2 hne hname
    obtain ⟨n1, -, e1⟩ := (mem_GenerateProduct prev _).mp (mapIndex_some_mem _ _ _ h1)
    obtain ⟨n2, -, e2⟩ := (mem_GenerateProduct prev _).mp (mapIndex_some_mem _ _ _ h2)
    have hc1 : c1 = codeAt n1 := congrArg Prod.fst e1
    have hc2 : c2 = codeAt n2 := congrArg Prod.fst e2
    have hp1 : p1 = (entryAt n1).2 := congrArg Prod.snd e1
    have hp2 : p2 = (entryAt n2).2 := congrArg Prod.snd e2
    rw [hp1, hp2] at hname
    have hn : n1 = n2 := name_inj n1 n2 hname
    apply hne
    rw [hc1, hc2, hn]
  · intro name
    rw [GenerateProduct_names]
    simp only [List.mem_map, List.mem_range]
    constructor
    · rintro ⟨n, hn, rfl⟩
      exact ⟨n, hn, rfl⟩
    · rintro ⟨n, hn, rfl⟩
      exact ⟨n, hn, rfl⟩
  · intro N hN
    refine ⟨entryAt N, ⟨(mem_GenerateProduct prev _).mpr ⟨N, hN, rfl⟩, rfl⟩, ?_⟩
    rintro e ⟨he, hname⟩
    obtain ⟨n, -, rfl⟩ := (mem_GenerateProduct prev e).mp he
    have hn : n = N := name_inj n N hname
    rw [hn]
  · rw [GenerateProduct_names]
    apply List.Nodup.map_on _ (List.nodup_range _)
    intro n _ m _ h
    exact name_inj n m h
  · intro k hk
    exact ⟨codeAt k, genAfter_succ k hk⟩

end Benchmark
